import Mathlib

/- Shallow embedding of `src/libstd/sys_common/backtrace.rs` (the backtrace
   printer of the standard library): the frame walk of `_print_fmt`, the
   cached enablement query `log_enabled`, and the path renderer
   `output_filename`.  External collaborators (the `backtrace_rs` walker,
   resolver and formatter, the standard-library `Path` operations and the
   UTF-8 machinery) are modelled explicitly below where the embedded code
   depends on their behaviour. -/

namespace Backtrace

/-- Print format of a backtrace, `backtrace_rs::PrintFmt`: `Short` is the
terse mode, `Full` the verbose mode. -/
inductive PrintFmt
  | Short
  | Full
deriving DecidableEq

/-- Discriminant of `backtrace_rs::PrintFmt` used by the cast `v as isize`
in `log_enabled`.  The crate declares `pub enum PrintFmt { Short, Full, .. }`
with no explicit discriminants, so Rust assigns `Short as isize = 0` and
`Full as isize = 1`. -/
def printFmtDisc : PrintFmt → Int
  | .Short => 0
  | .Full => 1

/-- Native path text handed to `output_filename`:
`backtrace_rs::BytesOrWideString`, either a byte-encoded path or a
wide-code-unit path. -/
inductive BytesOrWideString
  | bytes (b : List Nat)
  | wide (w : List Nat)
deriving DecidableEq

/-- One resolved symbol record: optional demangled name (as characters;
`none` models `symbol.name().and_then(|s| s.as_str())` yielding nothing),
optional file path in its native encoding, optional line. -/
structure SymbolRecord where
  name : Option (List Char)
  file : Option BytesOrWideString
  line : Option Nat
deriving DecidableEq

/-- One raw stack frame as produced by the walker: an instruction pointer
and the list of symbol records the resolver yields for it, in callback
order. -/
structure RawFrame where
  ip : Nat
  symbols : List SymbolRecord
deriving DecidableEq

/-- Sentinel substring checked by `_print_fmt` in terse mode. -/
def sentinelStr : String := "__rust_begin_short_backtrace"

/-- Sentinel substring as a character list. -/
def sentinelChars : List Char := sentinelStr.data

/-- Substring containment on character lists, modelling `str::contains`
with a literal pattern: does `pat` occur contiguously inside the list? -/
def containsSub (pat : List Char) : List Char → Bool
  | [] => pat.isEmpty
  | a :: rest => pat.isPrefixOf (a :: rest) || containsSub pat rest

/-- Does a resolved symbol name contain the sentinel substring?
Models `symbol.name().and_then(|s| s.as_str())` followed by
`sym.contains("__rust_begin_short_backtrace")`; an absent name never
matches. -/
def nameHasSentinel : Option (List Char) → Bool
  | some n => containsSub sentinelChars n
  | none => false

/-- Does this symbol trigger the terse-mode sentinel stop?  The source
guards the check with `print_fmt == PrintFmt::Short`. -/
def isSentinelSym (mode : PrintFmt) (s : SymbolRecord) : Bool :=
  if mode = PrintFmt.Short then nameHasSentinel s.name else false

/-- One formatted backtrace entry: a resolved symbol entry
(`bt_fmt.frame().symbol(frame, symbol)`) or a raw instruction-pointer
entry (`bt_fmt.frame().print_raw(frame.ip(), None, None, None)`). -/
inductive Entry
  | sym (s : SymbolRecord)
  | raw (ip : Nat)
deriving DecidableEq

/-- Maximum number of frames to print, `const MAX_NB_FRAMES: usize = 100`. -/
def MAX_NB_FRAMES : Nat := 100

/-- State threaded through the frame walk of `_print_fmt`: the per-frame
counter `idx`, the number of write attempts issued to the sink so far
(used to index the sink's per-attempt outcome), the entries formatted so
far, and the current value of the mutable `res` result. -/
structure WalkState where
  idx : Nat
  attempts : Nat
  out : List Entry
  resOk : Bool
deriving DecidableEq

/-- One write attempt against the caller's sink.  The sink is modelled as
a function from attempt index to success; the attempt's outcome
overwrites `res`, exactly as `res = bt_fmt.frame().symbol(..)` and
`res = bt_fmt.frame().print_raw(..)` overwrite the mutable `res`. -/
def writeEntry (sink : Nat → Bool) (st : WalkState) (e : Entry) : WalkState :=
  { st with out := st.out ++ [e], attempts := st.attempts + 1, resOk := sink st.attempts }

/-- The resolver callback loop of one frame
(`backtrace_rs::resolve_frame_unsynchronized(frame, |symbol| ..)`).
The accumulator is `(hit, stop, state)`.  Every invocation sets `hit`;
in terse mode a sentinel name sets `stop` and skips formatting that one
symbol, but the loop keeps running over the remaining symbols of the same
frame and still formats them, as the `return` in the source only leaves
the closure for the current symbol. -/
def resolveSyms (mode : PrintFmt) (sink : Nat → Bool) :
    List SymbolRecord → Bool × Bool × WalkState → Bool × Bool × WalkState
  | [], acc => acc
  | s :: rest, (_, stop, st) =>
    if isSentinelSym mode s then
      resolveSyms mode sink rest (true, true, st)
    else
      resolveSyms mode sink rest (true, stop, writeEntry sink st (Entry.sym s))

/-- The per-frame callback passed to `backtrace_rs::trace_unsynchronized`.
Returns `(continue?, state)`: the walker proceeds to the next frame only
when the callback returns `true`.  Mirrors the source exactly: terse cap
check `idx > MAX_NB_FRAMES`, resolution, sentinel stop, raw entry when no
symbol was hit, `idx += 1`, continue on `res.is_ok()`. -/
def frameStep (mode : PrintFmt) (sink : Nat → Bool) (f : RawFrame) (st : WalkState) :
    Bool × WalkState :=
  if mode = PrintFmt.Short ∧ st.idx > MAX_NB_FRAMES then
    (false, st)
  else
    let r := resolveSyms mode sink f.symbols (false, false, st)
    let hit := r.1
    let stop := r.2.1
    let st1 := r.2.2
    if stop then
      (false, st1)
    else
      let st2 := if hit then st1 else writeEntry sink st1 (Entry.raw f.ip)
      let st3 := { st2 with idx := st2.idx + 1 }
      (st3.resOk, st3)

/-- The walk driven by `backtrace_rs::trace_unsynchronized`: frames are
fed to the callback innermost-first until it returns `false` or the stack
is exhausted.  Also returns the frames never handed to the callback. -/
def walkFrames (mode : PrintFmt) (sink : Nat → Bool) :
    List RawFrame → WalkState → WalkState × List RawFrame
  | [], st => (st, [])
  | f :: fs, st =>
    let r := frameStep mode sink f st
    if r.1 then walkFrames mode sink fs r.2 else (r.2, fs)

/-- Observable outcome of one `_print_fmt` call: overall result (`true`
for `Ok(())`), the formatted entries in order, the total number of write
attempts, whether the terse trailing note was written, and the frames the
walk never visited. -/
structure RunResult where
  ok : Bool
  entries : List Entry
  attempts : Nat
  noteWritten : Bool
  remaining : List RawFrame
deriving DecidableEq

/-- The body of `_print_fmt`: one context write (`bt_fmt.add_context()?`,
attempt 0), the frame walk, propagation of `res?`, `bt_fmt.finish()?`
(which writes nothing for these formats), and in terse mode the trailing
note write (`writeln!(..)?`). -/
def printFmtRun (mode : PrintFmt) (sink : Nat → Bool) (frames : List RawFrame) : RunResult :=
  if sink 0 = false then
    { ok := false, entries := [], attempts := 1, noteWritten := false, remaining := frames }
  else
    let w := walkFrames mode sink frames { idx := 0, attempts := 1, out := [], resOk := true }
    let st := w.1
    if st.resOk = false then
      { ok := false, entries := st.out, attempts := st.attempts, noteWritten := false,
        remaining := w.2 }
    else if mode = PrintFmt.Short then
      let noteOk := sink st.attempts
      { ok := noteOk, entries := st.out, attempts := st.attempts + 1, noteWritten := noteOk,
        remaining := w.2 }
    else
      { ok := true, entries := st.out, attempts := st.attempts, noteWritten := false,
        remaining := w.2 }

/-- A sink on which every write attempt succeeds. -/
def allOk : Nat → Bool := fun _ => true

/-- ASCII text as a byte list (all strings used in this development are
ASCII, so code points and bytes coincide). -/
def asciiBytes (s : String) : List Nat := s.data.map Char.toNat

/-- Literal `"0"` compared against the environment value in `log_enabled`. -/
def zeroLit : String := "0"

/-- Literal `"full"` compared against the environment value in `log_enabled`. -/
def fullLit : String := "full"

/-- The function `log_enabled`.  Inputs: the `cfg!(target_os = "fuchsia")`
flag, the value of the `RUST_BACKTRACE` environment variable as raw bytes
(`env::var_os`, `none` when unset), and the current value of the shared
`static ENABLED: AtomicIsize`.  Output: the returned `Option<PrintFmt>`
and the value of `ENABLED` after the call.  The store writes
`Some(v) => v as isize, None => 1` using the discriminants of
`backtrace_rs::PrintFmt`. -/
def logEnabled (fuchsia : Bool) (envVar : Option (List Nat)) (enabled : Int) :
    Option PrintFmt × Int :=
  if fuchsia then (some PrintFmt.Full, enabled)
  else if enabled = 0 then
    let val : Option PrintFmt :=
      match envVar with
      | none => none
      | some x =>
        if x = asciiBytes zeroLit then none
        else if x = asciiBytes fullLit then some PrintFmt.Full
        else some PrintFmt.Short
    (val, match val with
          | some v => printFmtDisc v
          | none => 1)
  else if enabled = 1 then (none, enabled)
  else if enabled = 2 then (some PrintFmt.Short, enabled)
  else (some PrintFmt.Full, enabled)

/-- Platform of the embedded build of `output_filename`.  The source
selects conversion arms with `cfg(unix)` / `cfg(not(unix))` and
`cfg(windows)` / `cfg(not(windows))`; the embedding covers the builds
where `MAIN_SEPARATOR` is `/`: `unix` (byte paths accepted verbatim) and
`otherOs` (neither unix nor windows, e.g. wasm/SGX targets, where byte
paths go through `str::from_utf8` and wide paths are unconvertible).  The
windows build is outside this embedding. -/
inductive Platform
  | unix
  | otherOs
deriving DecidableEq

/-- Continuation byte of a UTF-8 sequence, `0x80 ..= 0xBF`. -/
def isCont (b : Nat) : Prop := 0x80 ≤ b ∧ b ≤ 0xBF

instance (b : Nat) : Decidable (isCont b) := by unfold isCont; infer_instance

/-- Length of the valid UTF-8 scalar sequence starting at the head of the
list, or `none` when the head does not start a valid sequence.  Follows
the UTF-8 well-formedness table used by `str::from_utf8` (overlongs and
surrogates rejected). -/
def utf8SeqLen : List Nat → Option Nat
  | [] => none
  | b :: rest =>
    if b ≤ 0x7F then some 1
    else if 0xC2 ≤ b ∧ b ≤ 0xDF then
      match rest with
      | c1 :: _ => if isCont c1 then some 2 else none
      | [] => none
    else if b = 0xE0 then
      match rest with
      | c1 :: c2 :: _ => if (0xA0 ≤ c1 ∧ c1 ≤ 0xBF) ∧ isCont c2 then some 3 else none
      | _ => none
    else if (0xE1 ≤ b ∧ b ≤ 0xEC) ∨ b = 0xEE ∨ b = 0xEF then
      match rest with
      | c1 :: c2 :: _ => if isCont c1 ∧ isCont c2 then some 3 else none
      | _ => none
    else if b = 0xED then
      match rest with
      | c1 :: c2 :: _ => if (0x80 ≤ c1 ∧ c1 ≤ 0x9F) ∧ isCont c2 then some 3 else none
      | _ => none
    else if b = 0xF0 then
      match rest with
      | c1 :: c2 :: c3 :: _ =>
        if (0x90 ≤ c1 ∧ c1 ≤ 0xBF) ∧ isCont c2 ∧ isCont c3 then some 4 else none
      | _ => none
    else if 0xF1 ≤ b ∧ b ≤ 0xF3 then
      match rest with
      | c1 :: c2 :: c3 :: _ => if isCont c1 ∧ isCont c2 ∧ isCont c3 then some 4 else none
      | _ => none
    else if b = 0xF4 then
      match rest with
      | c1 :: c2 :: c3 :: _ =>
        if (0x80 ≤ c1 ∧ c1 ≤ 0x8F) ∧ isCont c2 ∧ isCont c3 then some 4 else none
      | _ => none
    else none

/-- Fuel-indexed UTF-8 validity: the byte list decomposes entirely into
valid scalar sequences.  With fuel at least the list length the fuel never
runs out, since every parsed sequence consumes at least one byte. -/
def utf8ValidFuel : Nat → List Nat → Bool
  | 0, l => l.isEmpty
  | fuel + 1, l =>
    match utf8SeqLen l with
    | some n => utf8ValidFuel fuel (l.drop n)
    | none => l.isEmpty

/-- UTF-8 validity of a byte list, modelling `str::from_utf8(..).is_ok()`
and `OsStr::to_str(..).is_some()`. -/
def utf8Valid (l : List Nat) : Bool := utf8ValidFuel l.length l

/-- UTF-8 encoding of U+FFFD REPLACEMENT CHARACTER. -/
def replacementBytes : List Nat := [0xEF, 0xBF, 0xBD]

/-- Fuel-indexed lossy UTF-8 decoding (modelling the text produced by
`Path::display`, i.e. `String::from_utf8_lossy`): valid sequences are
copied, invalid bytes are replaced by U+FFFD. -/
def utf8LossyFuel : Nat → List Nat → List Nat
  | 0, _ => []
  | _ + 1, [] => []
  | fuel + 1, b :: r =>
    match utf8SeqLen (b :: r) with
    | some n => (b :: r).take n ++ utf8LossyFuel fuel ((b :: r).drop n)
    | none => replacementBytes ++ utf8LossyFuel fuel r

/-- Lossy UTF-8 rendering of a byte list. -/
def utf8LossyBytes (l : List Nat) : List Nat := utf8LossyFuel l.length l

/-- Text written by the final `fmt::Display::fmt(&file.display(), fmt)`
fallback of `output_filename`. -/
def displayBytes (l : List Nat) : List Nat := utf8LossyBytes l

/-- Path separator byte `/`, i.e. `path::MAIN_SEPARATOR` on the embedded
(non-windows) builds. -/
def mainSeparator : Nat := 47

/-- Is the path absolute?  `Path::is_absolute` on non-windows targets
means `has_root`, i.e. the path starts with a separator. -/
def isAbsolutePath (p : List Nat) : Bool := decide (p.head? = some 47)

/-- Segments of a byte path split on the separator (keeping empty
segments; component filtering happens in `pathComps`). -/
def splitSegs (l : List Nat) : List (List Nat) :=
  l.foldr
    (fun b acc =>
      if b = 47 then [] :: acc
      else
        match acc with
        | s :: rest => (b :: s) :: rest
        | [] => [[b]])
    [[]]

/-- One parsed path component, modelling `std::path::Component` on
non-windows targets (the `Prefix` variant cannot occur there). -/
inductive PathComp
  | rootDir
  | curDir
  | normal (s : List Nat)
deriving DecidableEq

/-- Components of a byte path, modelling `Path::components` on
non-windows targets: a leading separator yields `rootDir`; a leading `.`
segment of a relative path yields `curDir`; empty and interior `.`
segments are skipped. -/
def pathComps (p : List Nat) : List PathComp :=
  let raw := splitSegs p
  let named := (raw.filter (fun s => decide (s ≠ [] ∧ s ≠ [46]))).map PathComp.normal
  if isAbsolutePath p then PathComp.rootDir :: named
  else
    match raw with
    | s0 :: _ => if s0 = [46] then PathComp.curDir :: named else named
    | [] => named

/-- Text of one component when a component list is rendered back to a
path. -/
def compText : PathComp → List Nat
  | .rootDir => []
  | .curDir => [46]
  | .normal s => s

/-- Render a component list back to a byte path. -/
def compsToPath : List PathComp → List Nat
  | .rootDir :: rest => 47 :: List.intercalate [47] (rest.map compText)
  | cs => List.intercalate [47] (cs.map compText)

/-- Model of `Path::strip_prefix`: succeeds when the components of `base`
are a prefix of the components of `p`, returning the remaining components
as a path. -/
def stripPrefixBytes (p base : List Nat) : Option (List Nat) :=
  let cp := pathComps p
  let cb := pathComps base
  if cb = cp.take cb.length then some (compsToPath (cp.drop cb.length)) else none

/-- Placeholder text substituted for unconvertible paths. -/
def unknownStr : String := "<unknown>"

/-- Placeholder path bytes. -/
def unknownPath : List Nat := asciiBytes unknownStr

/-- Conversion of the native path text into the path value used by the
rest of `output_filename`, i.e. the `match bows` at the top of the
function: on unix, bytes are accepted verbatim
(`OsStr::from_bytes`); on other non-windows targets, bytes go through
`str::from_utf8(bytes).unwrap_or("<unknown>")`; wide strings are
unconvertible on every non-windows target (`Path::new("<unknown>")`). -/
def convertPath : Platform → BytesOrWideString → List Nat
  | .unix, .bytes b => b
  | .otherOs, .bytes b => if utf8Valid b then b else unknownPath
  | _, .wide _ => unknownPath

/-- Text `./` prepended to a shortened path, from `write!(fmt, ".{}{}",
path::MAIN_SEPARATOR, s)`. -/
def dotSep : List Nat := [46, 47]

/-- The function `output_filename`: convert the native text, then in
terse mode try to shorten an absolute path by the working-directory
snapshot (requiring `strip_prefix` to succeed and the remainder to be
valid UTF-8), and otherwise display the path as-is. -/
def outputFilename (plat : Platform) (bows : BytesOrWideString) (pfmt : PrintFmt)
    (cwd : Option (List Nat)) : List Nat :=
  let file := convertPath plat bows
  if pfmt = PrintFmt.Short ∧ isAbsolutePath file = true then
    match cwd with
    | some c =>
      match stripPrefixBytes file c with
      | some stripped =>
        if utf8Valid stripped then dotSep ++ stripped else displayBytes file
      | none => displayBytes file
    | none => displayBytes file
  else displayBytes file

/-! Derived bookkeeping used by the lemma statements, plus the concrete
inputs small enough to evaluate inside proofs. -/

/-- Sequential formatting of a list of symbol records (the writes a frame
issues when no sentinel interferes). -/
def writeSyms (sink : Nat → Bool) (st : WalkState) (syms : List SymbolRecord) : WalkState :=
  syms.foldl (fun st s => writeEntry sink st (Entry.sym s)) st

/-- Entries a frame contributes when processed without a sentinel stop:
its symbol entries, or one raw entry when resolution yielded nothing. -/
def frameEntries (f : RawFrame) : List Entry :=
  if f.symbols.isEmpty then [Entry.raw f.ip] else f.symbols.map Entry.sym

/-- State after all writes of one frame processed without a sentinel
stop: the symbol writes, or the raw write when nothing resolved. -/
def frameWrite (sink : Nat → Bool) (st : WalkState) (f : RawFrame) : WalkState :=
  if f.symbols.isEmpty then writeEntry sink st (Entry.raw f.ip)
  else writeSyms sink st f.symbols

/-- Entries contributed by a list of frames. -/
def framesEntries (fs : List RawFrame) : List Entry := (fs.map frameEntries).flatten

/-- Number of write attempts a frame issues when processed without a
sentinel stop. -/
def frameCost (f : RawFrame) : Nat := max 1 f.symbols.length

/-- Total write attempts issued by a list of frames. -/
def frameCosts (fs : List RawFrame) : Nat := (fs.map frameCost).sum

/-- A sink whose failures are persistent: once one attempt fails, every
later attempt fails too. -/
def Persistent (sink : Nat → Bool) : Prop :=
  ∀ m n : Nat, m ≤ n → sink m = false → sink n = false

/-- Invariant tying the walk's mutable result to the sink history: `res`
is `Ok` exactly when every attempt issued so far succeeded. -/
def SinkInv (sink : Nat → Bool) (st : WalkState) : Prop :=
  st.resOk = true ↔ ∀ n < st.attempts, sink n = true

/-- A resolvable symbol whose (empty) name does not contain the
sentinel. -/
def plainSym : SymbolRecord := ⟨some [], none, none⟩

/-- A symbol whose name is exactly the sentinel substring. -/
def sentSym : SymbolRecord := ⟨some sentinelChars, none, none⟩

/-- A frame resolving to exactly one plain symbol. -/
def oneSymFrame (i : Nat) : RawFrame := ⟨i, [plainSym]⟩

/-- A stack of 102 resolvable one-symbol frames with no sentinel. -/
def capFrames : List RawFrame := (List.range 102).map oneSymFrame

/-- A frame whose resolver yields the sentinel symbol first and then one
more symbol. -/
def cexC2Frames : List RawFrame := [⟨0, [sentSym, plainSym]⟩]

/-- A frame resolving to the sentinel symbol only. -/
def sentFrame : RawFrame := ⟨6, [sentSym]⟩

/-- A frame resolving to three plain symbols. -/
def fanFrame : RawFrame := ⟨0, [plainSym, plainSym, plainSym]⟩

/-- A sink that fails exactly on attempt 1 and recovers afterwards. -/
def transientSink : Nat → Bool := fun n => decide (n ≠ 1)

/-- Frames used against `transientSink`: the first frame issues attempts
1 and 2, the second frame issues attempt 3. -/
def cexC5Frames : List RawFrame := [⟨0, [plainSym, plainSym]⟩, ⟨1, [plainSym]⟩]

/-- A persistent sink that succeeds on attempts 0 and 1 only. -/
def failAfterTwo : Nat → Bool := fun n => decide (n < 2)

/-- Environment value `full`. -/
def fullEnv : Option (List Nat) := some (asciiBytes fullLit)

/-- Environment value `1`. -/
def oneLit : String := "1"

/-- Working directory of the path-shortening examples, `/a/b`. -/
def cwdStr : String := "/a/b"

/-- File path inside the working directory, `/a/b/c/d.ext`. -/
def fileInCwdStr : String := "/a/b/c/d.ext"

/-- Remainder of `/a/b/c/d.ext` after stripping `/a/b`. -/
def remStr : String := "c/d.ext"

/-- Expected shortened rendering `./c/d.ext`. -/
def shortenedStr : String := "./c/d.ext"

/-- File path outside the working directory, `/x/y/z.ext`. -/
def otherFileStr : String := "/x/y/z.ext"

/-- Working directory of the examples followed by a trailing separator. -/
def cwdSlashStr : String := "/a/b/"

/-- Absolute file path under `/a/b` whose remainder after the prefix is
the single invalid UTF-8 byte `0xFF`. -/
def badRemFile : List Nat := asciiBytes cwdSlashStr ++ [0xFF]

/-! Helper lemmas about the walk. -/

theorem isSentinelSym_full (s : SymbolRecord) : isSentinelSym PrintFmt.Full s = false := rfl

theorem isSentinelSym_short (s : SymbolRecord) :
    isSentinelSym PrintFmt.Short s = nameHasSentinel s.name := rfl

theorem writeSyms_cons (sink : Nat → Bool) (st : WalkState) (s : SymbolRecord)
    (rest : List SymbolRecord) :
    writeSyms sink st (s :: rest) = writeSyms sink (writeEntry sink st (Entry.sym s)) rest := rfl

theorem writeSyms_idx (sink : Nat → Bool) (syms : List SymbolRecord) :
    ∀ st : WalkState, (writeSyms sink st syms).idx = st.idx := by
  induction syms with
  | nil => intro st; rfl
  | cons s rest ih =>
    intro st
    rw [writeSyms_cons, ih]
    rfl

theorem writeSyms_attempts (sink : Nat → Bool) (syms : List SymbolRecord) :
    ∀ st : WalkState, (writeSyms sink st syms).attempts = st.attempts + syms.length := by
  induction syms with
  | nil => intro st; rfl
  | cons s rest ih =>
    intro st
    rw [writeSyms_cons, ih]
    simp [writeEntry]
    omega

theorem writeSyms_out (sink : Nat → Bool) (syms : List SymbolRecord) :
    ∀ st : WalkState, (writeSyms sink st syms).out = st.out ++ syms.map Entry.sym := by
  induction syms with
  | nil => intro st; simp [writeSyms]
  | cons s rest ih =>
    intro st
    rw [writeSyms_cons, ih]
    simp [writeEntry]

theorem writeSyms_allOk_state (syms : List SymbolRecord) :
    ∀ st : WalkState,
      writeSyms allOk st syms =
        ⟨st.idx, st.attempts + syms.length, st.out ++ syms.map Entry.sym,
         if syms.isEmpty then st.resOk else true⟩ := by
  induction syms with
  | nil => intro st; simp [writeSyms]
  | cons s rest ih =>
    intro st
    rw [writeSyms_cons, ih]
    cases hr : rest.isEmpty <;> simp [writeEntry, allOk, Nat.add_assoc, Nat.add_comm 1]

theorem writeSyms_allOk_resOk (syms : List SymbolRecord) :
    ∀ st : WalkState,
      (writeSyms allOk st syms).resOk = if syms.isEmpty then st.resOk else true := by
  induction syms with
  | nil => intro st; rfl
  | cons s rest ih =>
    intro st
    rw [writeSyms_cons, ih]
    cases hr : rest.isEmpty <;> simp [writeEntry, allOk]

theorem resolveSyms_noSent (mode : PrintFmt) (sink : Nat → Bool) :
    ∀ syms : List SymbolRecord, (∀ s ∈ syms, isSentinelSym mode s = false) →
      ∀ (h : Bool) (st : WalkState),
        resolveSyms mode sink syms (h, false, st) =
          ((h || !syms.isEmpty), false, writeSyms sink st syms)
  | [], _, h, st => by simp [resolveSyms, writeSyms]
  | s :: rest, hns, h, st => by
    have hs : isSentinelSym mode s = false := hns s (by simp)
    have ih := resolveSyms_noSent mode sink rest (fun x hx => hns x (by simp [hx])) true
      (writeEntry sink st (Entry.sym s))
    simp only [resolveSyms, hs, Bool.false_eq_true, if_false, ih, writeSyms_cons]
    simp

theorem resolveSyms_sentLast (sink : Nat → Bool) :
    ∀ (spre : List SymbolRecord) (ssent : SymbolRecord),
      (∀ s ∈ spre, isSentinelSym PrintFmt.Short s = false) →
      isSentinelSym PrintFmt.Short ssent = true →
      ∀ (h : Bool) (st : WalkState),
        resolveSyms PrintFmt.Short sink (spre ++ [ssent]) (h, false, st) =
          (true, true, writeSyms sink st spre)
  | [], ssent, _, hsent, h, st => by
    simp only [List.nil_append, resolveSyms, hsent, if_true, writeSyms]
    rfl
  | s :: rest, ssent, hns, hsent, h, st => by
    have hs : isSentinelSym PrintFmt.Short s = false := hns s (by simp)
    have ih := resolveSyms_sentLast sink rest ssent (fun x hx => hns x (by simp [hx])) hsent
      true (writeEntry sink st (Entry.sym s))
    simp only [List.cons_append, resolveSyms, hs, Bool.false_eq_true, if_false,
      writeSyms_cons]
    exact ih

theorem frameStep_noSent (mode : PrintFmt) (sink : Nat → Bool) (f : RawFrame) (st : WalkState)
    (hcap : ¬(mode = PrintFmt.Short ∧ st.idx > MAX_NB_FRAMES))
    (hns : ∀ s ∈ f.symbols, isSentinelSym mode s = false) :
    frameStep mode sink f st =
      ((frameWrite sink st f).resOk, { frameWrite sink st f with idx := st.idx + 1 }) := by
  rw [frameStep, if_neg hcap, resolveSyms_noSent mode sink f.symbols hns false st]
  cases he : f.symbols.isEmpty with
  | true =>
    have hnil : f.symbols = [] := by simpa using he
    simp [frameWrite, he, hnil, writeSyms, writeEntry]
  | false =>
    simp only [he, Bool.not_false, Bool.or_true, if_true, Bool.false_eq_true, if_false,
      frameWrite, Bool.true_eq_false]
    rw [writeSyms_idx]

theorem frameWrite_idx (sink : Nat → Bool) (st : WalkState) (f : RawFrame) :
    (frameWrite sink st f).idx = st.idx := by
  rw [frameWrite]
  cases he : f.symbols.isEmpty with
  | true => rfl
  | false => rw [if_neg (by simp), writeSyms_idx]

theorem frameWrite_attempts (sink : Nat → Bool) (st : WalkState) (f : RawFrame) :
    (frameWrite sink st f).attempts = st.attempts + frameCost f := by
  rw [frameWrite, frameCost]
  cases he : f.symbols.isEmpty with
  | true =>
    have hnil : f.symbols = [] := by simpa using he
    simp [hnil, writeEntry]
  | false =>
    have hlen : 1 ≤ f.symbols.length := by
      cases hn : f.symbols with
      | nil => rw [hn] at he; simp at he
      | cons a l => simp [hn]
    rw [if_neg (by simp [he]), writeSyms_attempts]
    omega

theorem frameWrite_out (sink : Nat → Bool) (st : WalkState) (f : RawFrame) :
    (frameWrite sink st f).out = st.out ++ frameEntries f := by
  rw [frameWrite, frameEntries]
  cases he : f.symbols.isEmpty with
  | true => simp [he, writeEntry]
  | false =>
    rw [if_neg (by simp [he]), if_neg (by simp [he]), writeSyms_out]

theorem frameWrite_allOk_resOk (st : WalkState) (f : RawFrame) :
    (frameWrite allOk st f).resOk = true := by
  rw [frameWrite]
  cases he : f.symbols.isEmpty with
  | true => rfl
  | false => rw [if_neg (by simp [he]), writeSyms_allOk_resOk, if_neg (by simp [he])]

theorem frameEntries_length (f : RawFrame) : (frameEntries f).length = frameCost f := by
  rw [frameEntries, frameCost]
  cases he : f.symbols.isEmpty with
  | true =>
    have hnil : f.symbols = [] := by simpa using he
    simp [hnil]
  | false =>
    have hlen : 1 ≤ f.symbols.length := by
      cases hn : f.symbols with
      | nil => rw [hn] at he; simp at he
      | cons a l => simp [hn]
    rw [if_neg (by simp [he])]
    simp
    omega

theorem frameCosts_cons (f : RawFrame) (fs : List RawFrame) :
    frameCosts (f :: fs) = frameCost f + frameCosts fs := by simp [frameCosts]

theorem framesEntries_nil : framesEntries [] = [] := rfl

theorem framesEntries_cons (f : RawFrame) (fs : List RawFrame) :
    framesEntries (f :: fs) = frameEntries f ++ framesEntries fs := by simp [framesEntries]

theorem framesEntries_length (fs : List RawFrame) :
    (framesEntries fs).length = frameCosts fs := by
  induction fs with
  | nil => rfl
  | cons f rest ih => simp [framesEntries_cons, frameCosts_cons, frameEntries_length, ih]

theorem framesEntries_length_resolvable (fs : List RawFrame)
    (hres : ∀ f ∈ fs, f.symbols ≠ []) :
    (framesEntries fs).length = (fs.map (fun f => f.symbols.length)).sum := by
  induction fs with
  | nil => rfl
  | cons f rest ih =>
    have hf : f.symbols ≠ [] := hres f (by simp)
    have hfe : (frameEntries f).length = f.symbols.length := by
      rw [frameEntries, if_neg (by simpa using hf)]
      simp
    simp only [framesEntries_cons, List.length_append, hfe, List.map_cons, List.sum_cons,
      ih (fun x hx => hres x (by simp [hx]))]

theorem walkFrames_full_allOk :
    ∀ (fs : List RawFrame) (st : WalkState), st.resOk = true →
      walkFrames PrintFmt.Full allOk fs st =
        ({ idx := st.idx + fs.length, attempts := st.attempts + frameCosts fs,
           out := st.out ++ framesEntries fs, resOk := true }, ([] : List RawFrame))
  | [], st, h => by
    cases st with
    | mk i a o r =>
      simp at h
      simp [walkFrames, frameCosts, framesEntries, h]
  | f :: fs, st, h => by
    have hcap : ¬(PrintFmt.Full = PrintFmt.Short ∧ st.idx > MAX_NB_FRAMES) := by simp
    have hns : ∀ s ∈ f.symbols, isSentinelSym PrintFmt.Full s = false :=
      fun s _ => isSentinelSym_full s
    have hstep := frameStep_noSent PrintFmt.Full allOk f st hcap hns
    have hres : (frameWrite allOk st f).resOk = true := frameWrite_allOk_resOk st f
    have hrec := walkFrames_full_allOk fs
      ⟨st.idx + 1, (frameWrite allOk st f).attempts, (frameWrite allOk st f).out, true⟩ rfl
    rw [walkFrames, hstep]
    simp only [hres, if_true]
    rw [hrec]
    simp only [frameWrite_attempts, frameWrite_out, frameCosts_cons, framesEntries_cons,
      List.length_cons, Prod.mk.injEq, WalkState.mk.injEq, List.append_assoc, and_true,
      true_and]
    omega

theorem walkFrames_short_noSent :
    ∀ (fs : List RawFrame) (st : WalkState), st.resOk = true →
      st.idx + fs.length ≤ MAX_NB_FRAMES + 1 →
      (∀ f ∈ fs, ∀ s ∈ f.symbols, isSentinelSym PrintFmt.Short s = false) →
      walkFrames PrintFmt.Short allOk fs st =
        ({ idx := st.idx + fs.length, attempts := st.attempts + frameCosts fs,
           out := st.out ++ framesEntries fs, resOk := true }, ([] : List RawFrame))
  | [], st, h, _, _ => by
    cases st with
    | mk i a o r =>
      simp at h
      simp [walkFrames, frameCosts, framesEntries, h]
  | f :: fs, st, h, hcap, hns => by
    have hcap1 : ¬(PrintFmt.Short = PrintFmt.Short ∧ st.idx > MAX_NB_FRAMES) := by
      simp only [List.length_cons] at hcap
      simp only [true_and, not_lt]
      omega
    have hstep := frameStep_noSent PrintFmt.Short allOk f st hcap1 (hns f (by simp))
    have hres : (frameWrite allOk st f).resOk = true := frameWrite_allOk_resOk st f
    have hrec := walkFrames_short_noSent fs
      ⟨st.idx + 1, (frameWrite allOk st f).attempts, (frameWrite allOk st f).out, true⟩ rfl
      (by simp only [List.length_cons] at hcap; simp; omega)
      (fun x hx => hns x (by simp [hx]))
    rw [walkFrames, hstep]
    simp only [hres, if_true]
    rw [hrec]
    simp only [frameWrite_attempts, frameWrite_out, frameCosts_cons, framesEntries_cons,
      List.length_cons, Prod.mk.injEq, WalkState.mk.injEq, List.append_assoc, and_true,
      true_and]
    omega

theorem walkFrames_short_sentinel :
    ∀ (pre : List RawFrame) (fsent : RawFrame) (post : List RawFrame)
      (spre : List SymbolRecord) (ssent : SymbolRecord) (st : WalkState),
      st.resOk = true →
      st.idx + pre.length ≤ MAX_NB_FRAMES →
      (∀ f ∈ pre, ∀ s ∈ f.symbols, isSentinelSym PrintFmt.Short s = false) →
      fsent.symbols = spre ++ [ssent] →
      (∀ s ∈ spre, isSentinelSym PrintFmt.Short s = false) →
      isSentinelSym PrintFmt.Short ssent = true →
      walkFrames PrintFmt.Short allOk (pre ++ fsent :: post) st =
        ({ idx := st.idx + pre.length,
           attempts := st.attempts + frameCosts pre + spre.length,
           out := st.out ++ framesEntries pre ++ spre.map Entry.sym,
           resOk := true }, post)
  | [], fsent, post, spre, ssent, st, h, hcap, _, hsyms, hspre, hsent => by
    have hcap1 : ¬(PrintFmt.Short = PrintFmt.Short ∧ st.idx > MAX_NB_FRAMES) := by
      simp only [List.length_nil, Nat.add_zero] at hcap
      simp only [true_and, not_lt]
      omega
    have hrs := resolveSyms_sentLast allOk spre ssent hspre hsent false st
    rw [List.nil_append, walkFrames, frameStep, if_neg hcap1, hsyms, hrs]
    simp only [if_true, Bool.false_eq_true, if_false]
    rw [writeSyms_allOk_state]
    cases st with
    | mk i a o r =>
      simp only [WalkState.resOk] at h
      subst h
      simp only [Prod.mk.injEq, WalkState.mk.injEq, and_true, ite_self]
      simp [frameCosts, framesEntries]
  | f :: pre, fsent, post, spre, ssent, st, h, hcap, hpre, hsyms, hspre, hsent => by
    have hcap1 : ¬(PrintFmt.Short = PrintFmt.Short ∧ st.idx > MAX_NB_FRAMES) := by
      simp only [List.length_cons] at hcap
      simp only [true_and, not_lt]
      omega
    have hstep := frameStep_noSent PrintFmt.Short allOk f st hcap1 (hpre f (by simp))
    have hres : (frameWrite allOk st f).resOk = true := frameWrite_allOk_resOk st f
    have hrec := walkFrames_short_sentinel pre fsent post spre ssent
      ⟨st.idx + 1, (frameWrite allOk st f).attempts, (frameWrite allOk st f).out, true⟩ rfl
      (by simp only [List.length_cons] at hcap; simp; omega)
      (fun x hx => hpre x (by simp [hx])) hsyms hspre hsent
    rw [List.cons_append, walkFrames, hstep]
    simp only [hres, if_true]
    rw [hrec]
    simp only [frameWrite_attempts, frameWrite_out, frameCosts_cons, framesEntries_cons,
      List.length_cons, Prod.mk.injEq, WalkState.mk.injEq, List.append_assoc, and_true,
      true_and]
    omega

/-! Sink invariant lemmas: with persistent failures, the walk's result is
`Ok` exactly when every attempt issued so far succeeded. -/

theorem sinkInv_writeEntry (sink : Nat → Bool) (hp : Persistent sink) (st : WalkState)
    (e : Entry) : SinkInv sink (writeEntry sink st e) := by
  constructor
  · intro hw n hn
    simp only [writeEntry] at hw hn
    rcases Nat.lt_succ_iff_lt_or_eq.mp hn with h' | h'
    · by_contra hfn
      have hfn' : sink n = false := by
        cases hv : sink n with
        | true => exact absurd hv hfn
        | false => rfl
      have := hp n st.attempts (Nat.le_of_lt h') hfn'
      rw [this] at hw
      exact absurd hw (by simp)
    · rw [h']
      exact hw
  · intro hall
    simp only [writeEntry]
    exact hall st.attempts (Nat.lt_succ_self _)

theorem sinkInv_writeSyms (sink : Nat → Bool) (hp : Persistent sink) :
    ∀ (syms : List SymbolRecord) (st : WalkState), SinkInv sink st →
      SinkInv sink (writeSyms sink st syms)
  | [], st, h => h
  | s :: rest, st, h => by
    rw [writeSyms_cons]
    exact sinkInv_writeSyms sink hp rest _ (sinkInv_writeEntry sink hp st (Entry.sym s))

theorem sinkInv_resolveSyms (mode : PrintFmt) (sink : Nat → Bool) (hp : Persistent sink) :
    ∀ (syms : List SymbolRecord) (hb sb : Bool) (st : WalkState), SinkInv sink st →
      SinkInv sink (resolveSyms mode sink syms (hb, sb, st)).2.2
  | [], _, _, _, h => h
  | s :: rest, hb, sb, st, h => by
    rw [resolveSyms]
    cases hs : isSentinelSym mode s with
    | true =>
      simp only [if_true]
      exact sinkInv_resolveSyms mode sink hp rest true true st h
    | false =>
      simp only [Bool.false_eq_true, if_false]
      exact sinkInv_resolveSyms mode sink hp rest true sb _
        (sinkInv_writeEntry sink hp st (Entry.sym s))

theorem sinkInv_idx (sink : Nat → Bool) (st : WalkState) (i : Nat) (h : SinkInv sink st) :
    SinkInv sink { st with idx := i } := h

theorem sinkInv_frameStep (mode : PrintFmt) (sink : Nat → Bool) (hp : Persistent sink)
    (f : RawFrame) (st : WalkState) (h : SinkInv sink st) :
    SinkInv sink (frameStep mode sink f st).2 := by
  rw [frameStep]
  by_cases hcap : mode = PrintFmt.Short ∧ st.idx > MAX_NB_FRAMES
  · rw [if_pos hcap]
    exact h
  · rw [if_neg hcap]
    have h1 : SinkInv sink (resolveSyms mode sink f.symbols (false, false, st)).2.2 :=
      sinkInv_resolveSyms mode sink hp f.symbols false false st h
    cases hstop : (resolveSyms mode sink f.symbols (false, false, st)).2.1 with
    | true => simpa [hstop] using h1
    | false =>
      simp only [hstop, Bool.false_eq_true, if_false]
      cases hhit : (resolveSyms mode sink f.symbols (false, false, st)).1 with
      | true => simpa [hhit] using h1
      | false =>
        simp only [hhit, Bool.false_eq_true, if_false]
        exact sinkInv_idx sink _ _ (sinkInv_writeEntry sink hp _ _)

theorem sinkInv_walk (mode : PrintFmt) (sink : Nat → Bool) (hp : Persistent sink) :
    ∀ (fs : List RawFrame) (st : WalkState), SinkInv sink st →
      SinkInv sink (walkFrames mode sink fs st).1
  | [], _, h => h
  | f :: fs, st, h => by
    rw [walkFrames]
    have h1 := sinkInv_frameStep mode sink hp f st h
    cases hc : (frameStep mode sink f st).1 with
    | true =>
      simp only [if_true]
      exact sinkInv_walk mode sink hp fs _ h1
    | false => simpa [hc] using h1

theorem frameStep_cont_resOk (mode : PrintFmt) (sink : Nat → Bool) (f : RawFrame)
    (st : WalkState) :
    (frameStep mode sink f st).1 = true → (frameStep mode sink f st).2.resOk = true := by
  rw [frameStep]
  by_cases hcap : mode = PrintFmt.Short ∧ st.idx > MAX_NB_FRAMES
  · rw [if_pos hcap]
    intro h
    exact absurd h (by simp)
  · rw [if_neg hcap]
    cases hstop : (resolveSyms mode sink f.symbols (false, false, st)).2.1 with
    | true => simp [hstop]
    | false =>
      simp only [hstop, Bool.false_eq_true, if_false]
      intro h
      simpa using h

theorem walkFrames_append_of_err (mode : PrintFmt) (sink : Nat → Bool) :
    ∀ (xs : List RawFrame) (st : WalkState), st.resOk = true →
      (walkFrames mode sink xs st).1.resOk = false →
      ∀ ys : List RawFrame,
        walkFrames mode sink (xs ++ ys) st =
          ((walkFrames mode sink xs st).1, (walkFrames mode sink xs st).2 ++ ys)
  | [], st, h, herr, ys => by
    simp only [walkFrames] at herr
    rw [h] at herr
    exact absurd herr (by simp)
  | x :: xs, st, h, herr, ys => by
    cases hc : (frameStep mode sink x st).1 with
    | true =>
      have hres1 : (frameStep mode sink x st).2.resOk = true :=
        frameStep_cont_resOk mode sink x st hc
      have herr' : (walkFrames mode sink xs (frameStep mode sink x st).2).1.resOk = false := by
        rw [walkFrames] at herr
        simpa [hc] using herr
      have ih := walkFrames_append_of_err mode sink xs (frameStep mode sink x st).2 hres1
        herr' ys
      rw [List.cons_append]
      simp only [walkFrames, hc, if_true]
      exact ih
    | false =>
      rw [List.cons_append]
      simp [walkFrames, hc]

/-! UTF-8 helper lemma. -/

theorem utf8LossyFuel_of_valid :
    ∀ (fuel : Nat) (l : List Nat), utf8ValidFuel fuel l = true → utf8LossyFuel fuel l = l
  | 0, l, h => by
    have hl : l = [] := by simpa [utf8ValidFuel] using h
    simp [utf8LossyFuel, hl]
  | fuel + 1, [], _ => rfl
  | fuel + 1, b :: r, h => by
    rw [utf8ValidFuel] at h
    rw [utf8LossyFuel]
    cases hseq : utf8SeqLen (b :: r) with
    | some k =>
      rw [hseq] at h
      simp only [hseq]
      rw [utf8LossyFuel_of_valid fuel ((b :: r).drop k) h]
      exact List.take_append_drop k (b :: r)
    | none =>
      rw [hseq] at h
      simp at h

theorem displayBytes_of_valid (l : List Nat) (h : utf8Valid l = true) :
    displayBytes l = l :=
  utf8LossyFuel_of_valid l.length l h

theorem printFmtRun_eq_of_walk_short (frames : List RawFrame) (i a : Nat) (o : List Entry)
    (rem : List RawFrame)
    (hw : walkFrames PrintFmt.Short allOk frames ⟨0, 1, [], true⟩ = (⟨i, a, o, true⟩, rem)) :
    printFmtRun PrintFmt.Short allOk frames =
      { ok := true, entries := o, attempts := a + 1, noteWritten := true, remaining := rem } := by
  simp [printFmtRun, allOk, hw]

theorem printFmtRun_eq_of_walk_full (frames : List RawFrame) (i a : Nat) (o : List Entry)
    (rem : List RawFrame)
    (hw : walkFrames PrintFmt.Full allOk frames ⟨0, 1, [], true⟩ = (⟨i, a, o, true⟩, rem)) :
    printFmtRun PrintFmt.Full allOk frames =
      { ok := true, entries := o, attempts := a, noteWritten := false, remaining := rem } := by
  simp [printFmtRun, allOk, hw]

/-! Claim theorems. -/

set_option maxRecDepth 100000 in
/-- C1: evaluation of the printer at the failing input.  A terse-mode
print over 102 resolvable sentinel-free frames emits 101 numbered
entries — the cap check `idx > MAX_NB_FRAMES` with `idx` starting at 0
lets frames 0 through 100 through — where the claim (and the constant's
own doc comment, `Max number of frames to print` with
`MAX_NB_FRAMES = 100`) requires exactly 100.  The full-mode half of the
claim does hold: all 102 frames are emitted and no trailing note is
written. -/
theorem C1_cap_eval :
    (printFmtRun PrintFmt.Short allOk capFrames).entries.length = 101 ∧
    (printFmtRun PrintFmt.Short allOk capFrames).ok = true ∧
    (printFmtRun PrintFmt.Short allOk capFrames).noteWritten = true ∧
    (printFmtRun PrintFmt.Full allOk capFrames).entries.length = 102 ∧
    (printFmtRun PrintFmt.Full allOk capFrames).noteWritten = false := by decide

/-- C2 counterexample: one frame whose resolver yields the sentinel
symbol first and then one more symbol, in terse mode.  The claim demands
k − 1 = 0 formatted entries (the sentinel is the first resolved symbol,
and the other symbols of the sentinel's own RawFrame are to be omitted),
but the code still formats the symbol the resolver yields after the
sentinel: exactly one entry is produced. -/
theorem C2_cex_post_sentinel_symbol :
    (printFmtRun PrintFmt.Short allOk cexC2Frames).entries = [Entry.sym plainSym] ∧
    (printFmtRun PrintFmt.Short allOk cexC2Frames).ok = true := by decide

/-- C3: evaluation at the failing input.  With the environment variable
set to `full` and the cache unset, the first query returns `Some(Full)`
but stores `Full as isize = 1` — the code that is reserved for the
`Disabled` state — so the second query returns `None` instead of the
cached `Some(Full)`.  With any terse value (e.g. `1`) the store writes
`Short as isize = 0`, the `Unset` code, so no caching happens at all and
every call re-reads the configuration. -/
theorem C3_cache_eval :
    (logEnabled false fullEnv 0).1 = some PrintFmt.Full ∧
    (logEnabled false fullEnv 0).2 = 1 ∧
    (logEnabled false fullEnv ((logEnabled false fullEnv 0).2)).1 = none ∧
    (logEnabled false (some (asciiBytes oneLit)) 0).2 = 0 := by decide

/-- C4: on the first query (cache unset, not on the always-full
platform), the environment value maps exactly as claimed: `"0"` and an
absent variable resolve to disabled (`none`), `"full"` to `Some(Full)`,
and any other present value — including the empty string — to
`Some(Short)`. -/
theorem C4_first_query_mapping :
    (∀ v : List Nat,
      (logEnabled false (some v) 0).1 =
        (if v = asciiBytes zeroLit then none
         else if v = asciiBytes fullLit then some PrintFmt.Full
         else some PrintFmt.Short)) ∧
    (logEnabled false none 0).1 = none ∧
    (logEnabled false (some ([] : List Nat)) 0).1 = some PrintFmt.Short := by
  refine ⟨fun v => rfl, by decide, by decide⟩

/-- C2 (amended): terse-mode sentinel truncation, amended by the
counterexample.  When the resolver's k-th resolved symbol (over
resolvable sentinel-free frames within the frame cap) carries the
sentinel name and is the last symbol yielded for its RawFrame, exactly
k − 1 entries are formatted, the sentinel frame and all following frames
are omitted, and the walk ends with no error followed by the note;
symbols yielded after the sentinel inside the same RawFrame would still
be formatted (see the counterexample), which is the only amendment.  In
full mode the sentinel has no effect: every frame of the same stack is
emitted, with no note. -/
theorem C2_amended_sentinel_truncation (pre : List RawFrame) (fsent : RawFrame)
    (post : List RawFrame) (spre : List SymbolRecord) (ssent : SymbolRecord)
    (hpre : ∀ f ∈ pre, f.symbols ≠ [] ∧ ∀ s ∈ f.symbols, nameHasSentinel s.name = false)
    (hsyms : fsent.symbols = spre ++ [ssent])
    (hspre : ∀ s ∈ spre, nameHasSentinel s.name = false)
    (hsent : nameHasSentinel ssent.name = true)
    (hcap : pre.length ≤ MAX_NB_FRAMES) :
    (printFmtRun PrintFmt.Short allOk (pre ++ fsent :: post)).ok = true ∧
    (printFmtRun PrintFmt.Short allOk (pre ++ fsent :: post)).entries.length =
      (pre.map (fun f => f.symbols.length)).sum + spre.length ∧
    (printFmtRun PrintFmt.Short allOk (pre ++ fsent :: post)).remaining = post ∧
    (printFmtRun PrintFmt.Short allOk (pre ++ fsent :: post)).noteWritten = true ∧
    (printFmtRun PrintFmt.Full allOk (pre ++ fsent :: post)).ok = true ∧
    (printFmtRun PrintFmt.Full allOk (pre ++ fsent :: post)).entries.length =
      frameCosts (pre ++ fsent :: post) ∧
    (printFmtRun PrintFmt.Full allOk (pre ++ fsent :: post)).remaining = [] ∧
    (printFmtRun PrintFmt.Full allOk (pre ++ fsent :: post)).noteWritten = false := by
  have hpre1 : ∀ f ∈ pre, ∀ s ∈ f.symbols, isSentinelSym PrintFmt.Short s = false := by
    intro f hf s hs
    rw [isSentinelSym_short]
    exact (hpre f hf).2 s hs
  have hpre2 : ∀ f ∈ pre, f.symbols ≠ [] := fun f hf => (hpre f hf).1
  have hspre1 : ∀ s ∈ spre, isSentinelSym PrintFmt.Short s = false := by
    intro s hs
    rw [isSentinelSym_short]
    exact hspre s hs
  have hsent1 : isSentinelSym PrintFmt.Short ssent = true := by
    rw [isSentinelSym_short]
    exact hsent
  have hwalkS := walkFrames_short_sentinel pre fsent post spre ssent ⟨0, 1, [], true⟩ rfl
    (by simpa using hcap) hpre1 hsyms hspre1 hsent1
  have hwalkF := walkFrames_full_allOk (pre ++ fsent :: post) ⟨0, 1, [], true⟩ rfl
  have hS := printFmtRun_eq_of_walk_short (pre ++ fsent :: post) _ _ _ _ hwalkS
  have hF := printFmtRun_eq_of_walk_full (pre ++ fsent :: post) _ _ _ _ hwalkF
  rw [hS, hF]
  refine ⟨rfl, ?_, rfl, rfl, rfl, ?_, rfl, rfl⟩
  · simp [framesEntries_length_resolvable pre hpre2]
  · simp [framesEntries_length]

/-- C7: within one walk, a frame processed without a cap stop and
without a sentinel stop advances the frame-index cap counter by exactly
one, while contributing one formatted entry per resolved symbol record
(one raw entry when resolution yields nothing) — a frame resolving to 3
symbol records contributes 3 entries but bumps `idx` by 1. -/
theorem C7_fanout (mode : PrintFmt) (sink : Nat → Bool) (f : RawFrame) (st : WalkState)
    (hcap : ¬(mode = PrintFmt.Short ∧ st.idx > MAX_NB_FRAMES))
    (hns : ∀ s ∈ f.symbols, isSentinelSym mode s = false) :
    (frameStep mode sink f st).2.idx = st.idx + 1 ∧
    (frameStep mode sink f st).2.out.length = st.out.length + frameCost f := by
  rw [frameStep_noSent mode sink f st hcap hns]
  constructor
  · rfl
  · show (frameWrite sink st f).out.length = st.out.length + frameCost f
    rw [frameWrite_out]
    simp [frameEntries_length]

/-- C7 witness: a concrete frame with three resolved symbols, processed
from index 0, ends at index 1 with three entries. -/
theorem C7_fanout_w :
    (frameStep PrintFmt.Full allOk fanFrame ⟨0, 1, [], true⟩).2.idx = 1 ∧
    (frameStep PrintFmt.Full allOk fanFrame ⟨0, 1, [], true⟩).2.out.length = 3 := by
  have h := C7_fanout PrintFmt.Full allOk fanFrame ⟨0, 1, [], true⟩ (by simp) (by decide)
  simpa [fanFrame, frameCost] using h

/-- C2 (amended) witness: one resolvable frame, then the sentinel frame,
then one more frame.  Terse mode formats exactly the one pre-sentinel
entry and leaves the following frame unvisited; full mode emits all
three entries. -/
theorem C2_amended_sentinel_truncation_w :
    (printFmtRun PrintFmt.Short allOk ([oneSymFrame 5] ++ sentFrame :: [oneSymFrame 7])).entries.length = 1 ∧
    (printFmtRun PrintFmt.Short allOk ([oneSymFrame 5] ++ sentFrame :: [oneSymFrame 7])).remaining = [oneSymFrame 7] ∧
    (printFmtRun PrintFmt.Full allOk ([oneSymFrame 5] ++ sentFrame :: [oneSymFrame 7])).entries.length = 3 := by
  have h := C2_amended_sentinel_truncation [oneSymFrame 5] sentFrame [oneSymFrame 7] []
    sentSym (by decide) rfl (by decide) (by decide) (by decide)
  refine ⟨?_, h.2.2.1, ?_⟩
  · have h1 := h.2.1
    simpa [oneSymFrame] using h1
  · have h2 := h.2.2.2.2.2.1
    simpa [frameCosts, frameCost, oneSymFrame, sentFrame, plainSym, sentSym] using h2

/-- C5 counterexample: a sink that fails on attempt 1 (the first symbol
of the first frame) and succeeds on every other attempt.  The claim
demands that this first failure abort the remaining walk and be returned
as the call's result; instead the successful write of the same frame's
second symbol overwrites `res`, the walk continues through the second
frame, and the call returns success with all three entries formatted. -/
theorem C5_cex_transient_failure_swallowed :
    transientSink 1 = false ∧
    (printFmtRun PrintFmt.Full transientSink cexC5Frames).ok = true ∧
    (printFmtRun PrintFmt.Full transientSink cexC5Frames).entries.length = 3 ∧
    (printFmtRun PrintFmt.Full transientSink cexC5Frames).remaining = [] := by decide

/-- C5 (amended): when the sink's failures are persistent (every attempt
after a failed attempt fails too) the claim holds, in three parts.
First, the print call returns success exactly when every write attempt
it issued succeeded, so the first failure is returned as the call's
result.  Second, the walk itself ends with `res` in the error state
exactly when some attempt it issued failed — in particular the first
failure leaves the walk in the error state by the end of its frame.
Third, once the walk over a stack has ended in the error state, any
frames after that point are never walked and change nothing: the run
over the extended stack has the same entries and attempts, still
returns the failure, writes no note, and carries the extra frames
untouched in its unvisited remainder (the per-frame callback continues
only on `res.is_ok()`).  With a sink that can recover, a failure on a
non-final symbol of a frame is silently overwritten (see the
counterexample). -/
theorem C5_amended_persistent (mode : PrintFmt) (sink : Nat → Bool) (frames : List RawFrame)
    (hp : Persistent sink) :
    ((printFmtRun mode sink frames).ok = true ↔
      ∀ n < (printFmtRun mode sink frames).attempts, sink n = true) ∧
    (sink 0 = true →
      ((walkFrames mode sink frames ⟨0, 1, [], true⟩).1.resOk = true ↔
        ∀ n < (walkFrames mode sink frames ⟨0, 1, [], true⟩).1.attempts, sink n = true)) ∧
    (∀ ys : List RawFrame,
      (walkFrames mode sink frames ⟨0, 1, [], true⟩).1.resOk = false →
      printFmtRun mode sink (frames ++ ys) =
        { ok := false,
          entries := (printFmtRun mode sink frames).entries,
          attempts := (printFmtRun mode sink frames).attempts,
          noteWritten := false,
          remaining := (printFmtRun mode sink frames).remaining ++ ys }) := by
  refine ⟨?_, ?_, ?_⟩
  · unfold printFmtRun
    cases h0 : sink 0 with
    | false =>
      simp only [h0, if_pos rfl]
      constructor
      · intro h'
        exact absurd h' (by simp)
      · intro hall
        have h1 := hall 0 (by simp)
        rw [h0] at h1
        exact absurd h1 (by simp)
    | true =>
      have hInv0 : SinkInv sink ⟨0, 1, [], true⟩ := by
        constructor
        · intro _ n hn
          have hn1 : n < 1 := by simpa using hn
          have hn0 : n = 0 := by omega
          rw [hn0]
          exact h0
        · intro _
          rfl
      have hInvW := sinkInv_walk mode sink hp frames ⟨0, 1, [], true⟩ hInv0
      rcases hW : walkFrames mode sink frames ⟨0, 1, [], true⟩ with ⟨st, rem⟩
      rw [hW] at hInvW
      simp only [SinkInv] at hInvW
      simp only [h0, hW]
      rw [if_neg (by simp)]
      cases hres : st.resOk with
      | false =>
        simp only [hres, if_pos rfl]
        constructor
        · intro h'
          exact absurd h' (by simp)
        · intro hall
          have : st.resOk = true := hInvW.mpr (by simpa using hall)
          rw [hres] at this
          exact absurd this (by simp)
      | true =>
        rw [if_neg (by simp)]
        cases mode with
        | Short =>
          rw [if_pos rfl]
          simp only
          constructor
          · intro hs n hn
            rcases Nat.lt_succ_iff_lt_or_eq.mp hn with h' | h'
            · exact (hInvW.mp hres) n h'
            · rw [h']
              exact hs
          · intro hall
            exact hall st.attempts (Nat.lt_succ_self _)
        | Full =>
          rw [if_neg (by simp)]
          simp only
          constructor
          · intro _ n hn
            exact (hInvW.mp hres) n hn
          · intro _
            trivial
  · intro h0
    have hInv0 : SinkInv sink ⟨0, 1, [], true⟩ := by
      constructor
      · intro _ n hn
        have hn1 : n < 1 := by simpa using hn
        have hn0 : n = 0 := by omega
        rw [hn0]
        exact h0
      · intro _
        rfl
    exact sinkInv_walk mode sink hp frames ⟨0, 1, [], true⟩ hInv0
  · intro ys hw
    cases h0 : sink 0 with
    | false => simp [printFmtRun, h0]
    | true =>
      have hcomp := walkFrames_append_of_err mode sink frames ⟨0, 1, [], true⟩ rfl hw ys
      rcases hW : walkFrames mode sink frames ⟨0, 1, [], true⟩ with ⟨st', rem⟩
      rw [hW] at hcomp hw
      simp only at hw
      simp [printFmtRun, h0, hcomp, hW, hw]

/-- C5 (amended) witness: the persistent sink that succeeds on attempts
0 and 1 only.  Over the one concrete two-symbol frame the success
criterion is exercised; its walk ends in the error state (attempt 2
fails), so appending the second concrete frame leaves it unwalked with
identical output, and the walk-level criterion is exercised at the
successful attempt 0. -/
theorem C5_amended_persistent_w :
    ((printFmtRun PrintFmt.Full failAfterTwo [⟨0, [plainSym, plainSym]⟩]).ok = true ↔
      ∀ n < (printFmtRun PrintFmt.Full failAfterTwo [⟨0, [plainSym, plainSym]⟩]).attempts,
        failAfterTwo n = true) ∧
    ((walkFrames PrintFmt.Full failAfterTwo [⟨0, [plainSym, plainSym]⟩]
        ⟨0, 1, [], true⟩).1.resOk = true ↔
      ∀ n < (walkFrames PrintFmt.Full failAfterTwo [⟨0, [plainSym, plainSym]⟩]
        ⟨0, 1, [], true⟩).1.attempts, failAfterTwo n = true) ∧
    printFmtRun PrintFmt.Full failAfterTwo ([⟨0, [plainSym, plainSym]⟩] ++ [⟨1, [plainSym]⟩]) =
      { ok := false,
        entries := (printFmtRun PrintFmt.Full failAfterTwo [⟨0, [plainSym, plainSym]⟩]).entries,
        attempts :=
          (printFmtRun PrintFmt.Full failAfterTwo [⟨0, [plainSym, plainSym]⟩]).attempts,
        noteWritten := false,
        remaining :=
          (printFmtRun PrintFmt.Full failAfterTwo [⟨0, [plainSym, plainSym]⟩]).remaining ++
            [⟨1, [plainSym]⟩] } := by
  have hp : Persistent failAfterTwo := by
    intro m n hmn hm
    simp only [failAfterTwo, decide_eq_false_iff_not, not_lt] at hm ⊢
    omega
  have h := C5_amended_persistent PrintFmt.Full failAfterTwo [⟨0, [plainSym, plainSym]⟩] hp
  exact ⟨h.1, h.2.1 (by decide), h.2.2 [⟨1, [plainSym]⟩] (by decide)⟩

/-- C6 counterexample: terse mode, the absolute file `/a/b/` followed by
the byte `0xFF`, working directory `/a/b`.  The path is absolute, a
snapshot exists and the path begins with the exact directory prefix, so
the claim requires the shortened rendering `.` + separator + remainder;
but the remainder `0xFF` is not valid UTF-8, so the code renders the
full path (lossily) instead. -/
theorem C6_cex_invalid_remainder :
    isAbsolutePath badRemFile = true ∧
    stripPrefixBytes badRemFile (asciiBytes cwdStr) = some [255] ∧
    outputFilename Platform.unix (BytesOrWideString.bytes badRemFile) PrintFmt.Short
        (some (asciiBytes cwdStr)) ≠ dotSep ++ [255] := by decide

/-- C6 (amended): the terse-mode path shortening of `output_filename`,
amended by the counterexample to require the remainder after the prefix
to be valid UTF-8.  When the path is absolute, a working-directory
snapshot exists, the prefix strips and the remainder is valid UTF-8, the
rendering is `.` + separator + remainder; in every other case — no
prefix match, relative path, no snapshot, full mode, or an invalid-UTF-8
remainder — the path is rendered as its plain display, which is the path
itself whenever the path text is valid UTF-8. -/
theorem C6_amended_path_shortening :
    (∀ f c s : List Nat, isAbsolutePath f = true → stripPrefixBytes f c = some s →
      utf8Valid s = true →
      outputFilename Platform.unix (BytesOrWideString.bytes f) PrintFmt.Short (some c) =
        dotSep ++ s) ∧
    (∀ f c : List Nat, stripPrefixBytes f c = none →
      outputFilename Platform.unix (BytesOrWideString.bytes f) PrintFmt.Short (some c) =
        displayBytes f) ∧
    (∀ f : List Nat, isAbsolutePath f = false → ∀ c : Option (List Nat),
      outputFilename Platform.unix (BytesOrWideString.bytes f) PrintFmt.Short c =
        displayBytes f) ∧
    (∀ f : List Nat,
      outputFilename Platform.unix (BytesOrWideString.bytes f) PrintFmt.Short none =
        displayBytes f) ∧
    (∀ (plat : Platform) (bows : BytesOrWideString) (c : Option (List Nat)),
      outputFilename plat bows PrintFmt.Full c = displayBytes (convertPath plat bows)) ∧
    (∀ f : List Nat, utf8Valid f = true → displayBytes f = f) := by
  refine ⟨?_, ?_, ?_, ?_, ?_, ?_⟩
  · intro f c s habs hstrip hvalid
    simp [outputFilename, convertPath, habs, hstrip, hvalid]
  · intro f c hstrip
    by_cases habs : isAbsolutePath f = true
    · simp [outputFilename, convertPath, habs, hstrip]
    · simp [outputFilename, convertPath, habs]
  · intro f habs c
    simp [outputFilename, convertPath, habs]
  · intro f
    by_cases habs : isAbsolutePath f = true
    · simp [outputFilename, convertPath, habs]
    · simp [outputFilename, convertPath, habs]
  · intro plat bows c
    simp [outputFilename]
  · intro f hvalid
    exact displayBytes_of_valid f hvalid

/-- C6 (amended) witness: the spec's own example — working directory
`/a/b`, file `/a/b/c/d.ext` — renders as `./c/d.ext` in terse mode. -/
theorem C6_amended_path_shortening_w :
    outputFilename Platform.unix (BytesOrWideString.bytes (asciiBytes fileInCwdStr))
        PrintFmt.Short (some (asciiBytes cwdStr)) = asciiBytes shortenedStr := by
  have h := C6_amended_path_shortening.1 (asciiBytes fileInCwdStr) (asciiBytes cwdStr)
    (asciiBytes remStr) (by decide) (by decide) (by decide)
  rw [h]
  decide

/-- C8: a wide-encoded path on a platform without wide-path conversion
(any non-windows build), and a non-UTF-8 byte-encoded path on a platform
without a byte-path conversion (neither unix nor windows), are both
rendered as the fixed `<unknown>` placeholder, in either mode, with any
working-directory snapshot. -/
theorem C8_unknown_placeholder :
    (∀ (plat : Platform) (w : List Nat) (pfmt : PrintFmt) (cwd : Option (List Nat)),
      outputFilename plat (BytesOrWideString.wide w) pfmt cwd = unknownPath) ∧
    (∀ (b : List Nat) (pfmt : PrintFmt) (cwd : Option (List Nat)), utf8Valid b = false →
      outputFilename Platform.otherOs (BytesOrWideString.bytes b) pfmt cwd = unknownPath) := by
  have habs : isAbsolutePath unknownPath = false := by decide
  have hdisp : displayBytes unknownPath = unknownPath := displayBytes_of_valid _ (by decide)
  constructor
  · intro plat w pfmt cwd
    have hfile : convertPath plat (BytesOrWideString.wide w) = unknownPath := by
      cases plat <;> rfl
    simp [outputFilename, hfile, habs, hdisp]
  · intro b pfmt cwd hinv
    simp [outputFilename, convertPath, hinv, habs, hdisp]

/-- C8 witness: the single byte `0xFF` is not valid UTF-8, so on the
non-unix non-windows build it renders as the placeholder. -/
theorem C8_unknown_placeholder_w :
    outputFilename Platform.otherOs (BytesOrWideString.bytes [255]) PrintFmt.Short none =
      unknownPath :=
  C8_unknown_placeholder.2 [255] PrintFmt.Short none (by decide)

/-- C9: in full mode the rendering of `output_filename` is independent
of the working-directory snapshot — the prefix-shortening branch is
guarded by the terse-mode test, so any two snapshots (present or absent)
give identical output for every path and platform. -/
theorem C9_full_mode_cwd_blind (plat : Platform) (bows : BytesOrWideString)
    (c1 c2 : Option (List Nat)) :
    outputFilename plat bows PrintFmt.Full c1 = outputFilename plat bows PrintFmt.Full c2 := rfl

/-- C10: in terse mode, when an absolute file path does start with the
working-directory prefix but the remainder after stripping is not valid
UTF-8, `output_filename` falls back to the plain (lossy) display of the
full path — it neither shortens nor fails. -/
theorem C10_invalid_remainder_fallback (f c s : List Nat)
    (habs : isAbsolutePath f = true)
    (hstrip : stripPrefixBytes f c = some s)
    (hinval : utf8Valid s = false) :
    outputFilename Platform.unix (BytesOrWideString.bytes f) PrintFmt.Short (some c) =
      displayBytes f := by
  simp [outputFilename, convertPath, habs, hstrip, hinval]

/-- C10 witness: the file `/a/b/` + `0xFF` under the working directory
`/a/b` strips to the invalid remainder `0xFF` and is rendered as the
lossy display of the whole path. -/
theorem C10_invalid_remainder_fallback_w :
    outputFilename Platform.unix (BytesOrWideString.bytes badRemFile) PrintFmt.Short
        (some (asciiBytes cwdStr)) = displayBytes badRemFile :=
  C10_invalid_remainder_fallback badRemFile (asciiBytes cwdStr) [255] (by decide) (by decide)
    (by decide)

end Backtrace
